import Mathlib

/-!
# Verification of the GenAI-Stack workflow graph core

Shallow embedding of the workflow data model, the graph-store mutations of
`frontend/src/hooks/useWorkflow.ts`, the validation engine of
`frontend/src/types/workflow.ts` (`validateWorkflowConnections`, `hasCycle`,
`isValidConnection`) and the node catalog (`getNodeDefaults`,
`getNodeDisplayName`).

Modelling conventions:
- JavaScript string-keyed `Record` lookups are modelled as finite maps
  (prototype-chain subtleties of plain objects are out of scope).
- Numeric configuration literals are carried as exact rationals; the core
  never computes with them, they are opaque payload.
- A thrown `TypeError` is modelled as `none`: `hasCycle` dereferences
  `adjacencyList[edge.source]` without a guard, so an edge whose `source` is
  not a node id makes the whole validation call throw; the embedding returns
  `none` in exactly that case.
- React state setters (`setNodes`, `setEdges`, `setSelectedNode`) are
  modelled as pure updates of a `WorkflowState` record.
-/

/-- A configuration value stored in a node's default payload. -/
inductive ConfigVal where
  | str (s : String)
  | num (q : Rat)
  | boolean (b : Bool)
  | emptyObj
  deriving DecidableEq, Repr

/-- `NodeData` of `types/workflow.ts`: a display label, an optional
description, and further keys allowed by the index signature. -/
structure NodeData where
  label : String
  description : Option String := none
  extra : List (String × ConfigVal) := []
  deriving DecidableEq, Repr

/-- `XYPosition`: a canvas coordinate pair (opaque payload for the core). -/
structure XYPosition where
  x : Rat := 0
  y : Rat := 0
  deriving DecidableEq, Repr

/-- `WorkflowNode`: id, type tag, position and data payload. The type tag is
a string at runtime (`NodeType` is only a TypeScript-level union). -/
structure WorkflowNode where
  id : String
  type : String
  position : XYPosition := {}
  data : NodeData
  deriving DecidableEq, Repr

/-- `WorkflowEdge`: id, endpoints, optional handles and presentation data. -/
structure WorkflowEdge where
  id : String
  source : String
  target : String
  sourceHandle : Option String := none
  targetHandle : Option String := none
  type : Option String := none
  animated : Option Bool := none
  deriving DecidableEq, Repr

/-! ## Node catalog (`utils/nodeDefaults.ts`) -/

/-- The four known node type identifiers. -/
def knownNodeTypes : List String := ["userQuery", "llm", "knowledgeBase", "output"]

/-- Default payload record returned by `getNodeDefaults`. -/
structure NodeDefaultsRec where
  label : String
  description : String
  fields : List (String × ConfigVal)
  deriving DecidableEq, Repr

/-- `getNodeDefaults` of `utils/nodeDefaults.ts`: a `switch` on the type tag
with a `default:` branch returning a fallback record. -/
def getNodeDefaults (t : String) : NodeDefaultsRec :=
  if t = "userQuery" then
    { label := "User Query", description := "Entry point for queries",
      fields := [("placeholder", ConfigVal.str "Enter your question here..."),
                 ("validationRules", ConfigVal.emptyObj)] }
  else if t = "llm" then
    { label := "LLM (OpenAI)", description := "Language model processing",
      fields := [("model", ConfigVal.str "gpt-3.5-turbo"),
                 ("prompt", ConfigVal.str "You are a helpful assistant."),
                 ("temperature", ConfigVal.num (0.7 : Rat)),
                 ("maxTokens", ConfigVal.num 150),
                 ("topP", ConfigVal.num 1),
                 ("frequencyPenalty", ConfigVal.num 0),
                 ("presencePenalty", ConfigVal.num 0)] }
  else if t = "knowledgeBase" then
    { label := "Knowledge Base", description := "Document knowledge source",
      fields := [("embeddingModel", ConfigVal.str "text-embedding-3-large"),
                 ("chunkSize", ConfigVal.num 1000),
                 ("chunkOverlap", ConfigVal.num 200),
                 ("similarityThreshold", ConfigVal.num (0.7 : Rat)),
                 ("maxResults", ConfigVal.num 5)] }
  else if t = "output" then
    { label := "Output", description := "Final response output",
      fields := [("format", ConfigVal.str "text"),
                 ("includeSources", ConfigVal.boolean true),
                 ("includeMetadata", ConfigVal.boolean false)] }
  else
    { label := "Unknown Node", description := "Unknown node type", fields := [] }

/-- `getNodeDisplayName`: a `Record` lookup with `|| type` fallback. -/
def getNodeDisplayName (t : String) : String :=
  if t = "userQuery" then "User Query"
  else if t = "llm" then "LLM (OpenAI)"
  else if t = "knowledgeBase" then "Knowledge Base"
  else if t = "output" then "Output"
  else t

/-! ## Connection legality (`types/workflow.ts`, `isValidConnection`) -/

/-- The allow-list table of `isValidConnection`. -/
def allowedTargets (sourceType : String) : Option (List String) :=
  if sourceType = "userQuery" then some ["llm", "knowledgeBase", "output"]
  else if sourceType = "knowledgeBase" then some ["llm", "output"]
  else if sourceType = "llm" then some ["output"]
  else if sourceType = "output" then some []
  else none

/-- `isValidConnection`: `validConnections[sourceType]?.includes(targetType) ?? false`. -/
def isValidConnection (sourceType targetType : String) : Bool :=
  match allowedTargets sourceType with
  | some ts => decide (targetType ∈ ts)
  | none => false

/-! ## Cycle detection (`types/workflow.ts`, `hasCycle`)

The source builds `adjacencyList` by assigning `[]` for every node id and then
pushing `edge.target` onto `adjacencyList[edge.source]` for every edge; when
`edge.source` is not a node id that dereference throws a `TypeError`.  When
building succeeds, the adjacency entry of a node id `v` is the list of targets
of the edges out of `v`, in edge order, and a lookup of any other id yields
nothing (the DFS then substitutes `[]` via `|| []`).  The recursive `dfs`
maintains a `visited` set and a `recursionStack` set; both are modelled as
lists used only through membership.  The recursion is driven by fuel; any fuel
that exceeds the number of ids that can ever be visited gives the exact
behaviour of the source. -/

/-- The node id list (`nodes.map(n => n.id)`). -/
def nodeIds (nodes : List WorkflowNode) : List String :=
  nodes.map WorkflowNode.id

/-- Adjacency lookup with the `|| []` default of the source's `dfs`. -/
def adjOf (nodes : List WorkflowNode) (edges : List WorkflowEdge) (v : String) : List String :=
  if v ∈ nodeIds nodes then
    (edges.filter (fun e => decide (e.source = v))).map WorkflowEdge.target
  else []

/-- The neighbour loop of `dfs`: for each neighbour, an unvisited one is
explored recursively (`visit`), a visited one still on the recursion stack
reports a cycle.  Returns the flag and the grown visited set. -/
def dfsListAux (visit : String → List String → List String → Bool × List String) :
    List String → List String → List String → Bool × List String
  | [], visited, _ => (false, visited)
  | n :: rest, visited, stack =>
    if n ∈ visited then
      if n ∈ stack then (true, visited)
      else dfsListAux visit rest visited stack
    else
      match visit n visited stack with
      | (true, visited') => (true, visited')
      | (false, visited') => dfsListAux visit rest visited' stack

/-- The source's `dfs(nodeId)`: mark visited, push on the recursion stack,
scan the adjacency entry.  Fuel only bounds the recursion depth; it is never
exhausted when it exceeds the number of visitable ids. -/
def dfsVisit (nodes : List WorkflowNode) (edges : List WorkflowEdge) :
    Nat → String → List String → List String → Bool × List String
  | 0, _, visited, _ => (true, visited)
  | Nat.succ fuel, v, visited, stack =>
    dfsListAux (dfsVisit nodes edges fuel) (adjOf nodes edges v) (v :: visited) (v :: stack)

/-- The top loop of `hasCycle`: start a DFS at every not-yet-visited node. -/
def hasCycleFrom (nodes : List WorkflowNode) (edges : List WorkflowEdge) (fuel : Nat) :
    List WorkflowNode → List String → Bool
  | [], _ => false
  | n :: rest, visited =>
    if n.id ∈ visited then hasCycleFrom nodes edges fuel rest visited
    else
      match dfsVisit nodes edges fuel n.id visited [] with
      | (true, _) => true
      | (false, visited') => hasCycleFrom nodes edges fuel rest visited'

/-- `hasCycle`: `none` models the `TypeError` thrown while building the
adjacency list when some edge's `source` is not a node id. -/
def hasCycle (nodes : List WorkflowNode) (edges : List WorkflowEdge) : Option Bool :=
  if ∀ e ∈ edges, e.source ∈ nodeIds nodes then
    some (hasCycleFrom nodes edges (nodes.length + edges.length + 1) nodes [])
  else none

/-! ## The validation engine (`validateWorkflowConnections`) -/

/-- The isolated-node check: collect the ids touched by any edge, report the
labels of untouched nodes (only when the workflow has more than one node). -/
def isolatedErrorsOf (nodes : List WorkflowNode) (edges : List WorkflowEdge) : List String :=
  if nodes.length > 1 then
    let connected := edges.flatMap (fun e => [e.source, e.target])
    let isolated := nodes.filter (fun n => decide (¬ n.id ∈ connected))
    if isolated.length > 0 then
      ["Isolated nodes detected: " ++
        String.intercalate ", " (isolated.map (fun n => n.data.label))]
    else []
  else []

/-- The per-edge check of `validateWorkflowConnections`: a dangling endpoint
is reported by edge id and ends the edge's processing (`return`), otherwise
an allow-list violation is reported by the two labels. -/
def edgeErrorsOf (nodes : List WorkflowNode) (edges : List WorkflowEdge) : List String :=
  edges.flatMap (fun e =>
    match nodes.find? (fun n => decide (n.id = e.source)),
          nodes.find? (fun n => decide (n.id = e.target)) with
    | some sourceNode, some targetNode =>
      if isValidConnection sourceNode.type targetNode.type then []
      else ["Invalid connection: " ++ sourceNode.data.label ++
            " cannot connect to " ++ targetNode.data.label]
    | _, _ => ["Invalid edge connection: " ++ e.id])

/-- `validateWorkflowConnections`.  Checks in source order: empty graph
(short-circuit), isolated nodes (only when more than one node), cycles, then
the per-edge structural and type checks.  `none` models the uncaught
`TypeError` propagating out of `hasCycle` (the isolated-node errors pushed
before the throw are lost with the rest of the report). -/
def validateWorkflowConnections (nodes : List WorkflowNode) (edges : List WorkflowEdge) :
    Option (Bool × List String) :=
  if nodes.length = 0 then
    some (false, ["Workflow must contain at least one node"])
  else
    match hasCycle nodes edges with
    | none => none
    | some cyc =>
      let errors := isolatedErrorsOf nodes edges ++
        (if cyc then ["Workflow contains circular dependencies"] else []) ++
        edgeErrorsOf nodes edges
      some (errors.isEmpty, errors)

/-! ## The graph store (`hooks/useWorkflow.ts`) -/

/-- The `useWorkflow` state: node list, edge list and the selected node. -/
structure WorkflowState where
  nodes : List WorkflowNode
  edges : List WorkflowEdge
  selectedNode : Option WorkflowNode := none
  deriving DecidableEq, Repr

/-- `addNode`: `setNodes(prev => [...prev, node])`. -/
def addNode (st : WorkflowState) (node : WorkflowNode) : WorkflowState :=
  { st with nodes := st.nodes ++ [node] }

/-- A `Partial<WorkflowNode>` patch: absent fields are `none`. -/
structure NodePatch where
  id : Option String := none
  type : Option String := none
  position : Option XYPosition := none
  data : Option NodeData := none
  deriving DecidableEq, Repr

/-- The JavaScript spread `{ ...node, ...updates }`: every field present in
the patch replaces the node's field wholesale. -/
def applyNodePatch (n : WorkflowNode) (p : NodePatch) : WorkflowNode :=
  { id := p.id.getD n.id, type := p.type.getD n.type,
    position := p.position.getD n.position, data := p.data.getD n.data }

/-- `updateNode`: map over the node list, spreading the patch into the node
whose id matches; silently the identity when no id matches. -/
def updateNode (st : WorkflowState) (nodeId : String) (updates : NodePatch) : WorkflowState :=
  { st with nodes := st.nodes.map (fun n => if n.id = nodeId then applyNodePatch n updates else n) }

/-- `removeNode`: filter the node out by id, drop every edge touching the id,
and clear the selection when the selected node carries that id. -/
def removeNode (st : WorkflowState) (nodeId : String) : WorkflowState :=
  { nodes := st.nodes.filter (fun n => decide (¬ n.id = nodeId)),
    edges := st.edges.filter (fun e => decide (¬ e.source = nodeId) && decide (¬ e.target = nodeId)),
    selectedNode :=
      match st.selectedNode with
      | some sel => if sel.id = nodeId then none else some sel
      | none => none }

/-- `addEdge` of `useWorkflow`: `setEdges(prev => [...prev, edge])`. -/
def addEdge (st : WorkflowState) (edge : WorkflowEdge) : WorkflowState :=
  { st with edges := st.edges ++ [edge] }

/-- `removeEdge`: filter by edge id. -/
def removeEdge (st : WorkflowState) (edgeId : String) : WorkflowState :=
  { st with edges := st.edges.filter (fun e => decide (¬ e.id = edgeId)) }

/-! ## The specification-side edge relation -/

/-- One directed step along an edge of the list. -/
def EdgeStep (edges : List WorkflowEdge) (v w : String) : Prop :=
  ∃ e ∈ edges, e.source = v ∧ e.target = w

/-- The algorithm-side step relation: `w` appears in the adjacency entry of
`v` as `hasCycle` builds it. -/
def AdjStep (nodes : List WorkflowNode) (edges : List WorkflowEdge) (v w : String) : Prop :=
  w ∈ adjOf nodes edges v

/-- Every id the DFS can ever visit: the node ids together with all edge
targets (a structurally valid DFS start is a node id; a neighbour is always
some edge's target). -/
def dfsUniverse (nodes : List WorkflowNode) (edges : List WorkflowEdge) : Finset String :=
  (nodes.map WorkflowNode.id ++ edges.map WorkflowEdge.target).toFinset

/-- The recursion stack read bottom-up is a path: every element steps (via
`AdjStep`) to the element pushed directly above it. -/
def StackChain (nodes : List WorkflowNode) (edges : List WorkflowEdge) : List String → Prop
  | [] => True
  | _ :: [] => True
  | a :: b :: l => AdjStep nodes edges b a ∧ StackChain nodes edges (b :: l)

/-! ## Concrete fixtures used by the claim-level theorems -/

/-- A query-intake node. -/
def wfNodeA : WorkflowNode := { id := "A", type := "userQuery", data := { label := "QA" } }

/-- A model-call node. -/
def wfNodeB : WorkflowNode := { id := "B", type := "llm", data := { label := "LB" } }

/-- An output node. -/
def wfNodeC : WorkflowNode := { id := "C", type := "output", data := { label := "OC" } }

/-- Edge A→B. -/
def edgeAB : WorkflowEdge := { id := "e1", source := "A", target := "B" }

/-- Edge B→C. -/
def edgeBC : WorkflowEdge := { id := "e2", source := "B", target := "C" }

/-- Edge C→A (closes the 3-cycle; also leaves an output node with an
out-edge). -/
def edgeCA : WorkflowEdge := { id := "e3", source := "C", target := "A" }

/-- Edge whose source id resolves to no node. -/
def edgeGhostA : WorkflowEdge := { id := "eg", source := "ghost", target := "A" }

/-- Edge whose target id resolves to no node (source resolves). -/
def edgeAGhost : WorkflowEdge := { id := "eag", source := "A", target := "ghost" }

/-- A second dangling-source edge. -/
def edgeGhostB : WorkflowEdge := { id := "egb", source := "ghost", target := "B" }

/-- The empty store. -/
def stEmpty : WorkflowState := { nodes := [], edges := [], selectedNode := none }

/-- A store holding one node. -/
def st1 : WorkflowState := { nodes := [wfNodeA], edges := [], selectedNode := none }

/-- A store with two nodes, an edge between them, and node A selected. -/
def stSel : WorkflowState :=
  { nodes := [wfNodeA, wfNodeB], edges := [edgeAB], selectedNode := some wfNodeA }

/-- The canvas-shaped candidate edge used twice in the duplicate test. -/
def dupEdge : WorkflowEdge :=
  { id := "edge-A-B", source := "A", target := "B", sourceHandle := none, targetHandle := none }

/-- A replacement data payload. -/
def dNew : NodeData := { label := "patched" }

/-- A patch that only carries a new `data` payload. -/
def patchD : NodePatch := { data := some dNew }

/-- A patch that only carries a new `type` tag. -/
def patchT : NodePatch := { type := some "output" }

/-- Edge B→A (closes a 2-cycle with `edgeAB`). -/
def edgeBA : WorkflowEdge := { id := "e4", source := "B", target := "A" }

/-- Edge C→B: both endpoints resolve, but `output` may connect to nothing. -/
def edgeCB : WorkflowEdge := { id := "e5", source := "C", target := "B" }

/-! ## Store lemmas -/

/-- Membership in a filtered node list. -/
lemma mem_removeNode_nodes (st : WorkflowState) (i : String) (n : WorkflowNode) :
    n ∈ (removeNode st i).nodes ↔ n ∈ st.nodes ∧ n.id ≠ i := by
  simp [removeNode, List.mem_filter]

/-- Membership in the cascaded edge list. -/
lemma mem_removeNode_edges (st : WorkflowState) (i : String) (e : WorkflowEdge) :
    e ∈ (removeNode st i).edges ↔ e ∈ st.edges ∧ e.source ≠ i ∧ e.target ≠ i := by
  simp [removeNode, List.mem_filter, and_assoc]

/-- C6: `removeNode n` removes the node with id `n` (if present) and exactly
the edges whose source or target equals `n`, leaving every other node and
edge unchanged and in order; when no node has id `n` the node collection is
unchanged, and removal is idempotent. -/
theorem c6_removeNode_cascade_frame (st : WorkflowState) (i : String) :
    (∀ n, n ∈ (removeNode st i).nodes ↔ n ∈ st.nodes ∧ n.id ≠ i) ∧
    (∀ e, e ∈ (removeNode st i).edges ↔ e ∈ st.edges ∧ e.source ≠ i ∧ e.target ≠ i) ∧
    (removeNode st i).nodes.Sublist st.nodes ∧
    (removeNode st i).edges.Sublist st.edges ∧
    ((∀ n ∈ st.nodes, n.id ≠ i) → (removeNode st i).nodes = st.nodes) ∧
    removeNode (removeNode st i) i = removeNode st i := by
  refine ⟨mem_removeNode_nodes st i, mem_removeNode_edges st i,
    List.filter_sublist _, List.filter_sublist _, ?_, ?_⟩
  · intro h
    show st.nodes.filter _ = st.nodes
    exact List.filter_eq_self.mpr (fun n hn => by simpa using h n hn)
  · unfold removeNode
    rw [WorkflowState.mk.injEq]
    refine ⟨?_, ?_, ?_⟩
    · simp [List.filter_filter]
    · simp [List.filter_filter]
    · cases h : st.selectedNode with
      | none => simp
      | some sel =>
        by_cases hid : sel.id = i <;> simp [hid]

/-- C10: `removeNode i` clears the selection exactly when the selected node's
id equals the removed id, and leaves any other selection unchanged; the
resulting selection never carries the removed id. -/
theorem c10_removeNode_selection (st : WorkflowState) (i : String) :
    ((removeNode st i).selectedNode =
      if st.selectedNode.map WorkflowNode.id = some i then none else st.selectedNode) ∧
    (removeNode st i).selectedNode.map WorkflowNode.id ≠ some i := by
  cases h : st.selectedNode with
  | none => simp [removeNode, h]
  | some sel =>
    by_cases hid : sel.id = i <;> simp [removeNode, h, hid]

/-- C3 counterexample: after two `addEdge` calls with the identical
`(source, target, sourceHandle, targetHandle)` candidate, the snapshot does
not hold exactly one such edge (it holds two). -/
theorem c3_addEdge_duplicate_not_deduped :
    ((addEdge (addEdge stEmpty dupEdge) dupEdge).edges.countP
      (fun e => decide (e.source = dupEdge.source) && decide (e.target = dupEdge.target) &&
        decide (e.sourceHandle = dupEdge.sourceHandle) &&
        decide (e.targetHandle = dupEdge.targetHandle))) ≠ 1 := by decide

/-- C3 amended: `addEdge` of the store appends unconditionally (no
deduplication), so adding the identical edge twice appends it twice; nodes
and selection are untouched. -/
theorem c3_addEdge_appends_unconditionally (st : WorkflowState) (e : WorkflowEdge) :
    (addEdge (addEdge st e) e).edges = st.edges ++ [e, e] ∧
    (addEdge st e).nodes = st.nodes ∧
    (addEdge st e).selectedNode = st.selectedNode := by
  simp [addEdge]

/-- C7 counterexample: `addNode` accepts a node whose id is already present,
so after a sequence of `addNode` calls the node ids are not unique. -/
theorem c7_addNode_allows_duplicate_ids :
    ¬ ((addNode (addNode stEmpty wfNodeA) wfNodeA).nodes.map WorkflowNode.id).Nodup := by
  decide

/-- C7 amended: `addNode` appends unconditionally — no `DuplicateId` check
exists, and edges and selection are untouched. -/
theorem c7_addNode_appends_unconditionally (st : WorkflowState) (n : WorkflowNode) :
    (addNode st n).nodes = st.nodes ++ [n] ∧
    (addNode st n).edges = st.edges ∧
    (addNode st n).selectedNode = st.selectedNode := by
  simp [addNode]

/-- C8 counterexample: the update path spreads the patch into the node
object itself, so a patch carrying `type` changes the node's type, and an
absent id is a silent no-op instead of a `NodeNotFound` failure. -/
theorem c8_updateNode_not_data_merge :
    (updateNode st1 "A" patchT).nodes.map WorkflowNode.type ≠
      st1.nodes.map WorkflowNode.type ∧
    updateNode st1 "absent" patchT = st1 := by
  constructor <;> decide

/-- C8 amended: `updateNode` spreads the patch into the matching node at the
top level (a `data` field in the patch replaces the whole `data` record), it
touches neither edges nor selection, and when no node carries the id the
store is returned unchanged with no error. -/
theorem c8_updateNode_spec (st : WorkflowState) (i : String) (p : NodePatch)
    (d : NodeData) (n₀ : WorkflowNode) (h : ∀ n ∈ st.nodes, n.id ≠ i) :
    updateNode st i p = st ∧
    applyNodePatch n₀ { id := none, type := none, position := none, data := some d } =
      { n₀ with data := d } ∧
    (updateNode st i p).edges = st.edges ∧
    (updateNode st i p).selectedNode = st.selectedNode := by
  have hmap : ∀ l : List WorkflowNode, (∀ n ∈ l, n.id ≠ i) →
      l.map (fun n => if n.id = i then applyNodePatch n p else n) = l := by
    intro l
    induction l with
    | nil => intro _; rfl
    | cons a t ih =>
      intro hl
      have ha : a.id ≠ i := hl a (by simp)
      simp only [List.map_cons, if_neg ha, ih (fun n hn => hl n (by simp [hn])), List.cons.injEq,
        and_self, true_and]
  refine ⟨?_, ?_, rfl, rfl⟩
  · unfold updateNode
    cases st with
    | mk ns es sel => simpa using hmap ns (by simpa using h)
  · simp [applyNodePatch]

/-- C8 witness: the amended behaviour at a concrete store, patch and node. -/
theorem c8_updateNode_witness :
    updateNode stEmpty "A" patchD = stEmpty ∧
    applyNodePatch wfNodeA { id := none, type := none, position := none, data := some dNew } =
      { wfNodeA with data := dNew } ∧
    (updateNode stEmpty "A" patchD).edges = stEmpty.edges ∧
    (updateNode stEmpty "A" patchD).selectedNode = stEmpty.selectedNode :=
  c8_updateNode_spec stEmpty "A" patchD dNew wfNodeA (by decide)

/-- C9 counterexample: an identifier outside the known set makes
`getNodeDefaults` return the fallback record and `getNodeDisplayName` return
the identifier itself — no `UnknownNodeType` error is signalled. -/
theorem c9_unknown_type_fallback :
    "customType" ∉ knownNodeTypes ∧
    getNodeDefaults "customType" =
      { label := "Unknown Node", description := "Unknown node type", fields := [] } ∧
    getNodeDisplayName "customType" = "customType" := by
  refine ⟨by decide, by decide, by decide⟩

/-- C9 amended: for every identifier outside the known set the catalog
lookups return fallback values (the `Unknown Node` defaults record, and the
identifier itself as display name) rather than signalling an error. -/
theorem c9_unknown_type_returns_fallback (t : String) (h : t ∉ knownNodeTypes) :
    getNodeDefaults t =
      { label := "Unknown Node", description := "Unknown node type", fields := [] } ∧
    getNodeDisplayName t = t := by
  simp only [knownNodeTypes, List.mem_cons, List.not_mem_nil, or_false, not_or] at h
  obtain ⟨h1, h2, h3, h4⟩ := h
  constructor
  · simp [getNodeDefaults, h1, h2, h3, h4]
  · simp [getNodeDisplayName, h1, h2, h3, h4]

/-- C9 witness: the fallback results at the concrete identifier `mystery`. -/
theorem c9_unknown_type_witness :
    getNodeDefaults "mystery" =
      { label := "Unknown Node", description := "Unknown node type", fields := [] } ∧
    getNodeDisplayName "mystery" = "mystery" :=
  c9_unknown_type_returns_fallback "mystery" (by decide)

/-- C1 (bug evaluation): on an edge whose `source` id resolves to no node the
whole validation call throws (`none`) instead of returning a report, while
the same node list with a well-formed edge set yields a complete report. -/
theorem c1_validate_throws_on_dangling_source :
    validateWorkflowConnections [wfNodeA, wfNodeB] [edgeGhostA] = none ∧
    validateWorkflowConnections [wfNodeA, wfNodeB] [edgeAB] = some (true, []) := by
  constructor <;> decide

/-- C2 (bug evaluation): a dangling edge is reported by id and skipped by
the type check (first conjunct: the only error is the dangling-edge report),
but the cycle check does not skip dangling edges — it builds its adjacency
list from every edge and throws on a dangling source (second conjunct). -/
theorem c2_cycle_check_does_not_skip_dangling :
    validateWorkflowConnections [wfNodeA] [edgeAGhost] =
      some (false, ["Invalid edge connection: eag"]) ∧
    validateWorkflowConnections [wfNodeA, wfNodeB] [edgeAB, edgeGhostB] = none := by
  constructor <;> decide

/-! ## DFS correctness

`hasCycle`, when it does not throw, returns `true` exactly when the edge
relation has a cycle.  Soundness tracks the recursion stack as a path;
completeness tracks a "no closed walk through an off-stack visited node"
invariant.  Both are proved for the neighbour loop parametrically in the
`visit` function and then tied by induction on fuel. -/

/-- One-step unfolding of the neighbour loop. -/
lemma dfsListAux_cons (visit : String → List String → List String → Bool × List String)
    (n : String) (rest visited stack : List String) :
    dfsListAux visit (n :: rest) visited stack =
      (if n ∈ visited then
        if n ∈ stack then (true, visited) else dfsListAux visit rest visited stack
      else
        match visit n visited stack with
        | (true, visited') => (true, visited')
        | (false, visited') => dfsListAux visit rest visited' stack) := rfl

/-- A DFS neighbour is an id of the universe. -/
lemma adjOf_subset_universe (nodes : List WorkflowNode) (edges : List WorkflowEdge)
    {v w : String} (h : w ∈ adjOf nodes edges v) : w ∈ dfsUniverse nodes edges := by
  unfold adjOf at h
  by_cases hv : v ∈ nodeIds nodes
  · rw [if_pos hv] at h
    rcases List.mem_map.mp h with ⟨e, he, rfl⟩
    have he' : e ∈ edges := (List.mem_filter.mp he).1
    unfold dfsUniverse
    rw [List.mem_toFinset]
    exact List.mem_append.mpr (Or.inr (List.mem_map.mpr ⟨e, he', rfl⟩))
  · rw [if_neg hv] at h
    cases h

/-- A node id is an id of the universe. -/
lemma nodeId_mem_universe (nodes : List WorkflowNode) (edges : List WorkflowEdge)
    {n : WorkflowNode} (h : n ∈ nodes) : n.id ∈ dfsUniverse nodes edges := by
  unfold dfsUniverse
  rw [List.mem_toFinset]
  exact List.mem_append.mpr (Or.inl (List.mem_map.mpr ⟨n, h, rfl⟩))

/-- A vertex with an outgoing `AdjStep` is a node id. -/
lemma adjStep_source_mem (nodes : List WorkflowNode) (edges : List WorkflowEdge)
    {v w : String} (h : AdjStep nodes edges v w) : v ∈ nodeIds nodes := by
  unfold AdjStep adjOf at h
  by_contra hv
  rw [if_neg hv] at h
  cases h

/-- Every stack element reaches the stack head along `AdjStep`. -/
lemma stackChain_reach (nodes : List WorkflowNode) (edges : List WorkflowEdge) :
    ∀ (l : List String) (a b : String),
      StackChain nodes edges (a :: l) → b ∈ a :: l →
      Relation.ReflTransGen (AdjStep nodes edges) b a := by
  intro l
  induction l with
  | nil =>
    intro a b _ hb
    rcases List.mem_singleton.mp hb with rfl
    exact Relation.ReflTransGen.refl
  | cons c l' ih =>
    intro a b hchain hb
    have hchain' : AdjStep nodes edges c a ∧ StackChain nodes edges (c :: l') := hchain
    rcases List.mem_cons.mp hb with rfl | hb'
    · exact Relation.ReflTransGen.refl
    · exact (ih c b hchain'.2 hb').tail hchain'.1

/-- The neighbour loop only grows the visited set. -/
lemma dfsListAux_mono (visit : String → List String → List String → Bool × List String)
    (hvm : ∀ w vs st, ∀ x ∈ vs, x ∈ (visit w vs st).2) :
    ∀ (ns visited stack : List String), ∀ x ∈ visited, x ∈ (dfsListAux visit ns visited stack).2 := by
  intro ns
  induction ns with
  | nil => intro visited stack x hx; exact hx
  | cons n rest ih =>
    intro visited stack x hx
    rw [dfsListAux_cons]
    by_cases hv : n ∈ visited
    · rw [if_pos hv]
      by_cases hs : n ∈ stack
      · rw [if_pos hs]; exact hx
      · rw [if_neg hs]; exact ih visited stack x hx
    · rw [if_neg hv]
      rcases hcall : visit n visited stack with ⟨b1, vs1⟩
      have hx1 : x ∈ vs1 := by
        have := hvm n visited stack x hx
        rw [hcall] at this
        exact this
      cases b1
      · exact ih vs1 stack x hx1
      · exact hx1

/-- `dfsVisit` only grows the visited set. -/
lemma dfsVisit_mono (nodes : List WorkflowNode) (edges : List WorkflowEdge) :
    ∀ (fuel : Nat) (v : String) (visited stack : List String),
      ∀ x ∈ visited, x ∈ (dfsVisit nodes edges fuel v visited stack).2 := by
  intro fuel
  induction fuel with
  | zero => intro v visited stack x hx; exact hx
  | succ f ih =>
    intro v visited stack x hx
    exact dfsListAux_mono (dfsVisit nodes edges f) (fun w vs st => ih w vs st)
      (adjOf nodes edges v) (v :: visited) (v :: stack) x (List.mem_cons_of_mem v hx)

/-- Soundness of the neighbour loop: a `true` answer exhibits a cycle,
provided the abstract `visit` is itself sound at the given fuel bound. -/
lemma dfsListAux_sound (nodes : List WorkflowNode) (edges : List WorkflowEdge) (F : Nat)
    (visit : String → List String → List String → Bool × List String)
    (hvm : ∀ w vs st, ∀ x ∈ vs, x ∈ (visit w vs st).2)
    (hvs : ∀ w vs st, StackChain nodes edges (w :: st) → (∀ x ∈ st, x ∈ vs) →
      w ∉ vs → w ∈ dfsUniverse nodes edges →
      (dfsUniverse nodes edges \ vs.toFinset).card ≤ F →
      (visit w vs st).1 = true → ∃ u, Relation.TransGen (AdjStep nodes edges) u u) :
    ∀ (ns visited : List String) (h : String) (t : List String),
      StackChain nodes edges (h :: t) →
      (∀ x ∈ h :: t, x ∈ visited) →
      (∀ x ∈ ns, x ∈ adjOf nodes edges h) →
      (dfsUniverse nodes edges \ visited.toFinset).card ≤ F →
      (dfsListAux visit ns visited (h :: t)).1 = true →
      ∃ u, Relation.TransGen (AdjStep nodes edges) u u := by
  intro ns
  induction ns with
  | nil =>
    intro visited h t _ _ _ _ htrue
    cases htrue
  | cons n rest ih =>
    intro visited h t hchain hsub hns hcard htrue
    rw [dfsListAux_cons] at htrue
    have hAdj : AdjStep nodes edges h n := hns n (List.mem_cons_self n rest)
    by_cases hv : n ∈ visited
    · rw [if_pos hv] at htrue
      by_cases hs : n ∈ h :: t
      · refine ⟨n, Relation.TransGen.tail' ?_ hAdj⟩
        exact stackChain_reach nodes edges t h n hchain hs
      · rw [if_neg hs] at htrue
        exact ih visited h t hchain hsub (fun x hx => hns x (List.mem_cons_of_mem n hx))
          hcard htrue
    · rw [if_neg hv] at htrue
      rcases hcall : visit n visited (h :: t) with ⟨b1, vs1⟩
      rw [hcall] at htrue
      cases b1
      · -- the recursive visit returned false; continue with the grown set
        have hmono : ∀ x ∈ visited, x ∈ vs1 := by
          intro x hx
          have := hvm n visited (h :: t) x hx
          rw [hcall] at this
          exact this
        refine ih vs1 h t hchain (fun x hx => hmono x (hsub x hx))
          (fun x hx => hns x (List.mem_cons_of_mem n hx)) ?_ htrue
        calc (dfsUniverse nodes edges \ vs1.toFinset).card
            ≤ (dfsUniverse nodes edges \ visited.toFinset).card := by
              apply Finset.card_le_card
              apply Finset.sdiff_subset_sdiff (le_refl _)
              intro x hx
              rw [List.mem_toFinset] at hx ⊢
              exact hmono x hx
          _ ≤ F := hcard
      · -- the recursive visit found a cycle
        have : (visit n visited (h :: t)).1 = true := by rw [hcall]
        refine hvs n visited (h :: t) ?_ (fun x hx => hsub x hx) hv
          (adjOf_subset_universe nodes edges hAdj) hcard this
        exact ⟨hAdj, hchain⟩

/-- Soundness of `dfsVisit`: under a chain-shaped stack and enough fuel, a
`true` answer exhibits a cycle of the adjacency relation. -/
lemma dfsVisit_sound (nodes : List WorkflowNode) (edges : List WorkflowEdge) :
    ∀ (fuel : Nat) (v : String) (visited stack : List String),
      StackChain nodes edges (v :: stack) →
      (∀ x ∈ stack, x ∈ visited) →
      v ∉ visited → v ∈ dfsUniverse nodes edges →
      (dfsUniverse nodes edges \ visited.toFinset).card ≤ fuel →
      (dfsVisit nodes edges fuel v visited stack).1 = true →
      ∃ u, Relation.TransGen (AdjStep nodes edges) u u := by
  intro fuel
  induction fuel with
  | zero =>
    intro v visited stack _ _ hv hU hcard _
    exfalso
    have hmem : v ∈ dfsUniverse nodes edges \ visited.toFinset := by
      rw [Finset.mem_sdiff, List.mem_toFinset]
      exact ⟨hU, hv⟩
    have : 0 < (dfsUniverse nodes edges \ visited.toFinset).card :=
      Finset.card_pos.mpr ⟨v, hmem⟩
    omega
  | succ f ih =>
    intro v visited stack hchain hsub hv hU hcard htrue
    have hcard' : (dfsUniverse nodes edges \ (v :: visited).toFinset).card ≤ f := by
      rw [List.toFinset_cons, Finset.sdiff_insert]
      have hmem : v ∈ dfsUniverse nodes edges \ visited.toFinset := by
        rw [Finset.mem_sdiff, List.mem_toFinset]
        exact ⟨hU, hv⟩
      rw [Finset.card_erase_of_mem hmem]
      omega
    exact dfsListAux_sound nodes edges f (dfsVisit nodes edges f)
      (fun w vs st => dfsVisit_mono nodes edges f w vs st)
      (fun w vs st hc hsb hw hwU hcd => ih w vs st hc hsb hw hwU hcd)
      (adjOf nodes edges v) (v :: visited) v stack hchain
      (fun x hx => by
        rcases List.mem_cons.mp hx with rfl | hx'
        · exact List.mem_cons_self x visited
        · exact List.mem_cons_of_mem v (hsub x hx'))
      (fun x hx => hx) hcard' htrue

/-- Completeness invariant of the neighbour loop.  When the loop answers
`false`: the visited set only grew; every processed neighbour ended up
visited and off the entry stack; every newly visited vertex has all its
adjacency successors visited and off the entry stack; and no closed
`AdjStep` walk passes through a visited vertex that is off the entry stack.
All of this holds provided the abstract `visit` satisfies the matching
contract (with the extra guarantee that successors of its newly visited
vertices also avoid the vertex it was started at). -/
lemma dfsListAux_complete (nodes : List WorkflowNode) (edges : List WorkflowEdge)
    (visit : String → List String → List String → Bool × List String)
    (hvc : ∀ w vs st, (∀ x ∈ st, x ∈ vs) → w ∉ vs →
      (∀ u ∈ vs, u ∉ st → ¬ Relation.TransGen (AdjStep nodes edges) u u) →
      (visit w vs st).1 = false →
      (∀ x ∈ vs, x ∈ (visit w vs st).2) ∧ w ∈ (visit w vs st).2 ∧
      (∀ u ∈ (visit w vs st).2, u ∉ vs →
        ∀ z ∈ adjOf nodes edges u, z ∈ (visit w vs st).2 ∧ z ∉ st ∧ z ≠ w) ∧
      (∀ u ∈ (visit w vs st).2, u ∉ st → ¬ Relation.TransGen (AdjStep nodes edges) u u)) :
    ∀ (ns visited stack : List String),
      (∀ x ∈ stack, x ∈ visited) →
      (∀ u ∈ visited, u ∉ stack → ¬ Relation.TransGen (AdjStep nodes edges) u u) →
      (dfsListAux visit ns visited stack).1 = false →
      (∀ x ∈ visited, x ∈ (dfsListAux visit ns visited stack).2) ∧
      (∀ n ∈ ns, n ∈ (dfsListAux visit ns visited stack).2 ∧ n ∉ stack) ∧
      (∀ u ∈ (dfsListAux visit ns visited stack).2, u ∉ visited →
        ∀ z ∈ adjOf nodes edges u, z ∈ (dfsListAux visit ns visited stack).2 ∧ z ∉ stack) ∧
      (∀ u ∈ (dfsListAux visit ns visited stack).2, u ∉ stack →
        ¬ Relation.TransGen (AdjStep nodes edges) u u) := by
  intro ns
  induction ns with
  | nil =>
    intro visited stack _ hacy _
    refine ⟨fun x hx => hx, fun n hn => absurd hn (List.not_mem_nil n), ?_, hacy⟩
    intro u hu hu'
    exact absurd hu hu'
  | cons n rest ih =>
    intro visited stack hsub hacy hfalse
    rw [dfsListAux_cons] at hfalse ⊢
    by_cases hv : n ∈ visited
    · rw [if_pos hv] at hfalse ⊢
      by_cases hs : n ∈ stack
      · rw [if_pos hs] at hfalse
        cases hfalse
      · rw [if_neg hs] at hfalse ⊢
        obtain ⟨hmono, hrest, hnew, hacy'⟩ := ih visited stack hsub hacy hfalse
        refine ⟨hmono, ?_, hnew, hacy'⟩
        intro m hm
        rcases List.mem_cons.mp hm with rfl | hm'
        · exact ⟨hmono m hv, hs⟩
        · exact hrest m hm'
    · rw [if_neg hv] at hfalse ⊢
      rcases hcall : visit n visited stack with ⟨b1, vs1⟩
      rw [hcall] at hfalse
      cases b1
      · -- the visit came back false; its contract then feeds the tail
        have hcontract := hvc n visited stack hsub hv hacy (by rw [hcall])
        rw [hcall] at hcontract
        obtain ⟨h1, h2, h3, h4⟩ := hcontract
        obtain ⟨hmono, hrest, hnew, hacy'⟩ :=
          ih vs1 stack (fun x hx => h1 x (hsub x hx)) h4 hfalse
        refine ⟨fun x hx => hmono x (h1 x hx), ?_, ?_, hacy'⟩
        · intro m hm
          rcases List.mem_cons.mp hm with rfl | hm'
          · exact ⟨hmono m h2, fun hms => hv (hsub m hms)⟩
          · exact hrest m hm'
        · intro u hu hunew z hz
          by_cases hu1 : u ∈ vs1
          · have := h3 u hu1 hunew z hz
            exact ⟨hmono z this.1, this.2.1⟩
          · exact hnew u hu hu1 z hz
      · cases hfalse

/-- Completeness invariant of `dfsVisit`: a `false` answer grows the visited
set to cover the start vertex, every newly visited vertex has all successors
visited, off the entry stack and distinct from the start vertex, and no
closed `AdjStep` walk passes through a visited vertex off the entry stack —
in particular none through the start vertex itself. -/
lemma dfsVisit_complete (nodes : List WorkflowNode) (edges : List WorkflowEdge) :
    ∀ (fuel : Nat) (w : String) (vs st : List String),
      (∀ x ∈ st, x ∈ vs) → w ∉ vs →
      (∀ u ∈ vs, u ∉ st → ¬ Relation.TransGen (AdjStep nodes edges) u u) →
      (dfsVisit nodes edges fuel w vs st).1 = false →
      (∀ x ∈ vs, x ∈ (dfsVisit nodes edges fuel w vs st).2) ∧
      w ∈ (dfsVisit nodes edges fuel w vs st).2 ∧
      (∀ u ∈ (dfsVisit nodes edges fuel w vs st).2, u ∉ vs →
        ∀ z ∈ adjOf nodes edges u,
          z ∈ (dfsVisit nodes edges fuel w vs st).2 ∧ z ∉ st ∧ z ≠ w) ∧
      (∀ u ∈ (dfsVisit nodes edges fuel w vs st).2, u ∉ st →
        ¬ Relation.TransGen (AdjStep nodes edges) u u) := by
  intro fuel
  induction fuel with
  | zero =>
    intro w vs st _ _ _ hfalse
    cases hfalse
  | succ f ih =>
    intro w vs st hsub hw hacy hfalse
    have hsub' : ∀ x ∈ w :: st, x ∈ w :: vs := by
      intro x hx
      rcases List.mem_cons.mp hx with rfl | hx'
      · exact List.mem_cons_self x vs
      · exact List.mem_cons_of_mem w (hsub x hx')
    have hacy' : ∀ u ∈ w :: vs, u ∉ w :: st →
        ¬ Relation.TransGen (AdjStep nodes edges) u u := by
      intro u hu hust
      rcases List.mem_cons.mp hu with rfl | hu'
      · exact absurd (List.mem_cons_self u st) hust
      · exact hacy u hu' (fun h => hust (List.mem_cons_of_mem w h))
    obtain ⟨hA, hB, hC, hD⟩ := dfsListAux_complete nodes edges (dfsVisit nodes edges f)
      (fun w' vs' st' => ih w' vs' st') (adjOf nodes edges w) (w :: vs) (w :: st)
      hsub' hacy' hfalse
    refine ⟨fun x hx => hA x (List.mem_cons_of_mem w hx), hA w (List.mem_cons_self w vs),
      ?_, ?_⟩
    · intro u hu hunvs z hz
      by_cases huw : u = w
      · subst huw
        obtain ⟨hz1, hz2⟩ := hB z hz
        exact ⟨hz1, fun h => hz2 (List.mem_cons_of_mem u h),
          fun h => hz2 (h ▸ List.mem_cons_self u st)⟩
      · have hu' : u ∉ w :: vs := by
          intro hmem
          rcases List.mem_cons.mp hmem with rfl | h
          · exact huw rfl
          · exact hunvs h
        obtain ⟨hz1, hz2⟩ := hC u hu hu' z hz
        exact ⟨hz1, fun h => hz2 (List.mem_cons_of_mem w h),
          fun h => hz2 (h ▸ List.mem_cons_self w st)⟩
    · intro u hu hust
      by_cases huw : u = w
      · subst huw
        intro hT
        rcases Relation.TransGen.head'_iff.mp hT with ⟨c, huc, hcu⟩
        obtain ⟨hc1, hc2⟩ := hB c huc
        exact hD c hc1 hc2 (Relation.TransGen.tail' hcu huc)
      · refine hD u hu ?_
        intro hmem
        rcases List.mem_cons.mp hmem with rfl | h
        · exact huw rfl
        · exact hust h

/-- Unfolding of the top loop at a cons cell. -/
lemma hasCycleFrom_cons (nodes : List WorkflowNode) (edges : List WorkflowEdge)
    (fuel : Nat) (n : WorkflowNode) (rest : List WorkflowNode) (visited : List String) :
    hasCycleFrom nodes edges fuel (n :: rest) visited =
      (if n.id ∈ visited then hasCycleFrom nodes edges fuel rest visited
      else
        match dfsVisit nodes edges fuel n.id visited [] with
        | (true, _) => true
        | (false, visited') => hasCycleFrom nodes edges fuel rest visited') := rfl

/-- The fuel `hasCycle` passes always dominates the unvisited universe. -/
lemma universe_card_le (nodes : List WorkflowNode) (edges : List WorkflowEdge)
    (visited : List String) :
    (dfsUniverse nodes edges \ visited.toFinset).card ≤ nodes.length + edges.length := by
  calc (dfsUniverse nodes edges \ visited.toFinset).card
      ≤ (dfsUniverse nodes edges).card := Finset.card_le_card Finset.sdiff_subset
    _ ≤ (nodes.map WorkflowNode.id ++ edges.map WorkflowEdge.target).length :=
        List.toFinset_card_le _
    _ = nodes.length + edges.length := by simp

/-- Soundness of the top loop: a `true` answer exhibits an `AdjStep` cycle. -/
lemma hasCycleFrom_sound (nodes : List WorkflowNode) (edges : List WorkflowEdge) :
    ∀ (rest : List WorkflowNode) (visited : List String),
      (∀ x ∈ rest, x ∈ nodes) →
      hasCycleFrom nodes edges (nodes.length + edges.length + 1) rest visited = true →
      ∃ u, Relation.TransGen (AdjStep nodes edges) u u := by
  intro rest
  induction rest with
  | nil => intro visited _ htrue; cases htrue
  | cons n rest ih =>
    intro visited hrest htrue
    rw [hasCycleFrom_cons] at htrue
    by_cases hv : n.id ∈ visited
    · rw [if_pos hv] at htrue
      exact ih visited (fun x hx => hrest x (List.mem_cons_of_mem n hx)) htrue
    · rw [if_neg hv] at htrue
      rcases hcall : dfsVisit nodes edges (nodes.length + edges.length + 1) n.id visited []
        with ⟨b1, vs1⟩
      rw [hcall] at htrue
      cases b1
      · exact ih vs1 (fun x hx => hrest x (List.mem_cons_of_mem n hx)) htrue
      · refine dfsVisit_sound nodes edges (nodes.length + edges.length + 1) n.id visited []
          trivial (fun x hx => absurd hx (List.not_mem_nil x)) hv
          (nodeId_mem_universe nodes edges (hrest n (List.mem_cons_self n rest))) ?_ ?_
        · have := universe_card_le nodes edges visited
          omega
        · rw [hcall]
  
/-- Completeness of the top loop: a `false` answer rules out `AdjStep`
cycles through every already-visited id and every id of the remaining
worklist. -/
lemma hasCycleFrom_complete (nodes : List WorkflowNode) (edges : List WorkflowEdge)
    (fuel : Nat) :
    ∀ (rest : List WorkflowNode) (visited : List String),
      (∀ u ∈ visited, ¬ Relation.TransGen (AdjStep nodes edges) u u) →
      hasCycleFrom nodes edges fuel rest visited = false →
      ∀ x, (x ∈ visited ∨ ∃ n ∈ rest, n.id = x) →
        ¬ Relation.TransGen (AdjStep nodes edges) x x := by
  intro rest
  induction rest with
  | nil =>
    intro visited hacy _ x hx
    rcases hx with hx | ⟨n, hn, _⟩
    · exact hacy x hx
    · exact absurd hn (List.not_mem_nil n)
  | cons n rest ih =>
    intro visited hacy hfalse x hx
    rw [hasCycleFrom_cons] at hfalse
    by_cases hv : n.id ∈ visited
    · rw [if_pos hv] at hfalse
      refine ih visited hacy hfalse x ?_
      rcases hx with hx | ⟨m, hm, hmx⟩
      · exact Or.inl hx
      · rcases List.mem_cons.mp hm with rfl | hm'
        · exact Or.inl (hmx ▸ hv)
        · exact Or.inr ⟨m, hm', hmx⟩
    · rw [if_neg hv] at hfalse
      rcases hcall : dfsVisit nodes edges fuel n.id visited [] with ⟨b1, vs1⟩
      rw [hcall] at hfalse
      cases b1
      · obtain ⟨hA, hB, _, hD⟩ := dfsVisit_complete nodes edges fuel n.id visited []
          (fun y hy => absurd hy (List.not_mem_nil y))
          hv (fun u hu _ => hacy u hu) (by rw [hcall])
        rw [hcall] at hA hB hD
        refine ih vs1 (fun u hu => hD u hu (List.not_mem_nil u)) hfalse x ?_
        rcases hx with hx | ⟨m, hm, hmx⟩
        · exact Or.inl (hA x hx)
        · rcases List.mem_cons.mp hm with rfl | hm'
          · exact Or.inl (hmx ▸ hB)
          · exact Or.inr ⟨m, hm', hmx⟩
      · cases hfalse

/-- `AdjStep` implies `EdgeStep`. -/
lemma adjStep_imp_edgeStep (nodes : List WorkflowNode) (edges : List WorkflowEdge)
    {v w : String} (h : AdjStep nodes edges v w) : EdgeStep edges v w := by
  unfold AdjStep adjOf at h
  by_cases hv : v ∈ nodeIds nodes
  · rw [if_pos hv] at h
    rcases List.mem_map.mp h with ⟨e, he, rfl⟩
    obtain ⟨he', hsrc⟩ := List.mem_filter.mp he
    exact ⟨e, he', of_decide_eq_true hsrc, rfl⟩
  · rw [if_neg hv] at h
    cases h

/-- When every edge source is a node id, `EdgeStep` implies `AdjStep`. -/
lemma edgeStep_imp_adjStep (nodes : List WorkflowNode) (edges : List WorkflowEdge)
    (hsrc : ∀ e ∈ edges, e.source ∈ nodeIds nodes)
    {v w : String} (h : EdgeStep edges v w) : AdjStep nodes edges v w := by
  obtain ⟨e, he, hes, het⟩ := h
  unfold AdjStep adjOf
  rw [if_pos (hes ▸ hsrc e he)]
  refine List.mem_map.mpr ⟨e, List.mem_filter.mpr ⟨he, decide_eq_true hes⟩, het⟩

/-- When every edge source resolves to a node, `hasCycle` returns a verdict,
and the verdict is `true` exactly when the edge relation has a cycle. -/
theorem hasCycle_correct (nodes : List WorkflowNode) (edges : List WorkflowEdge)
    (hsrc : ∀ e ∈ edges, e.source ∈ nodeIds nodes) :
    hasCycle nodes edges =
      some (hasCycleFrom nodes edges (nodes.length + edges.length + 1) nodes []) ∧
    (hasCycleFrom nodes edges (nodes.length + edges.length + 1) nodes [] = true ↔
      ∃ v, Relation.TransGen (EdgeStep edges) v v) := by
  constructor
  · unfold hasCycle
    rw [if_pos hsrc]
  · constructor
    · intro htrue
      obtain ⟨u, hu⟩ := hasCycleFrom_sound nodes edges nodes [] (fun x hx => hx) htrue
      exact ⟨u, Relation.TransGen.mono (fun a b hab => adjStep_imp_edgeStep nodes edges hab) hu⟩
    · rintro ⟨v, hv⟩
      by_contra hfalse
      rw [Bool.not_eq_true] at hfalse
      have hvAdj : Relation.TransGen (AdjStep nodes edges) v v :=
        Relation.TransGen.mono (fun a b hab => edgeStep_imp_adjStep nodes edges hsrc hab) hv
      have hvmem : v ∈ nodeIds nodes := by
        rcases Relation.TransGen.head'_iff.mp hvAdj with ⟨c, hvc, _⟩
        exact adjStep_source_mem nodes edges hvc
      rcases List.mem_map.mp hvmem with ⟨n, hn, hnv⟩
      exact hasCycleFrom_complete nodes edges (nodes.length + edges.length + 1) nodes []
        (fun u hu => absurd hu (List.not_mem_nil u)) hfalse v (Or.inr ⟨n, hn, hnv⟩) hvAdj

/-! ## The validation report and the cycle error -/

/-- An isolated-node report never equals the circular-dependency error. -/
lemma isolated_ne_cycleMsg (s : String) :
    "Isolated nodes detected: " ++ s ≠ "Workflow contains circular dependencies" := by
  intro h
  have h3 := congrArg String.data h
  rw [String.data_append] at h3
  have h4 : ("Isolated nodes detected: " : String).data =
      'I' :: ("solated nodes detected: " : String).data := rfl
  have h5 : ("Workflow contains circular dependencies" : String).data =
      'W' :: ("orkflow contains circular dependencies" : String).data := rfl
  rw [h4, h5] at h3
  exact absurd ((List.cons.injEq _ _ _ _).mp h3).1 (by decide)

/-- A type-violation report never equals the circular-dependency error. -/
lemma invalid_conn_ne_cycleMsg (s : String) :
    "Invalid connection: " ++ s ≠ "Workflow contains circular dependencies" := by
  intro h
  have h3 := congrArg String.data h
  rw [String.data_append] at h3
  have h4 : ("Invalid connection: " : String).data =
      'I' :: ("nvalid connection: " : String).data := rfl
  have h5 : ("Workflow contains circular dependencies" : String).data =
      'W' :: ("orkflow contains circular dependencies" : String).data := rfl
  rw [h4, h5] at h3
  exact absurd ((List.cons.injEq _ _ _ _).mp h3).1 (by decide)

/-- A dangling-edge report never equals the circular-dependency error. -/
lemma invalid_edge_ne_cycleMsg (s : String) :
    "Invalid edge connection: " ++ s ≠ "Workflow contains circular dependencies" := by
  intro h
  have h3 := congrArg String.data h
  rw [String.data_append] at h3
  have h4 : ("Invalid edge connection: " : String).data =
      'I' :: ("nvalid edge connection: " : String).data := rfl
  have h5 : ("Workflow contains circular dependencies" : String).data =
      'W' :: ("orkflow contains circular dependencies" : String).data := rfl
  rw [h4, h5] at h3
  exact absurd ((List.cons.injEq _ _ _ _).mp h3).1 (by decide)

/-- The circular-dependency error is never produced by the isolated check. -/
lemma cycleMsg_not_mem_isolated (nodes : List WorkflowNode) (edges : List WorkflowEdge) :
    "Workflow contains circular dependencies" ∉ isolatedErrorsOf nodes edges := by
  unfold isolatedErrorsOf
  intro hmem
  by_cases h1 : nodes.length > 1
  · rw [if_pos h1] at hmem
    by_cases h2 : (nodes.filter (fun n =>
        decide (¬ n.id ∈ edges.flatMap (fun e => [e.source, e.target])))).length > 0
    · rw [if_pos h2] at hmem
      rcases List.mem_singleton.mp hmem with h
      exact isolated_ne_cycleMsg _ h.symm
    · rw [if_neg h2] at hmem
      exact List.not_mem_nil _ hmem
  · rw [if_neg h1] at hmem
    exact List.not_mem_nil _ hmem

/-- The circular-dependency error is never produced by the per-edge check. -/
lemma cycleMsg_not_mem_edgeErrors (nodes : List WorkflowNode) (edges : List WorkflowEdge) :
    "Workflow contains circular dependencies" ∉ edgeErrorsOf nodes edges := by
  unfold edgeErrorsOf
  intro hmem
  rcases List.mem_flatMap.mp hmem with ⟨e, _, hme⟩
  rcases hfs : nodes.find? (fun n => decide (n.id = e.source)) with _ | sn <;>
    rcases hft : nodes.find? (fun n => decide (n.id = e.target)) with _ | tn <;>
    rw [hfs, hft] at hme
  · exact invalid_edge_ne_cycleMsg e.id (List.mem_singleton.mp hme).symm
  · exact invalid_edge_ne_cycleMsg e.id (List.mem_singleton.mp hme).symm
  · exact invalid_edge_ne_cycleMsg e.id (List.mem_singleton.mp hme).symm
  · have hme' : "Workflow contains circular dependencies" ∈
        (if isValidConnection sn.type tn.type then ([] : List String)
        else ["Invalid connection: " ++ sn.data.label ++
              " cannot connect to " ++ tn.data.label]) := hme
    by_cases hvc : isValidConnection sn.type tn.type
    · rw [if_pos hvc] at hme'
      exact List.not_mem_nil _ hme'
    · rw [if_neg hvc] at hme'
      have h := (List.mem_singleton.mp hme').symm
      rw [String.append_assoc, String.append_assoc] at h
      exact invalid_conn_ne_cycleMsg _ h

/-- When every edge source resolves and the node list is non-empty, the
engine returns the report assembled from the three error groups, with the
cycle verdict computed by the DFS. -/
lemma validate_report (nodes : List WorkflowNode) (edges : List WorkflowEdge)
    (hsrc : ∀ e ∈ edges, e.source ∈ nodeIds nodes) (hne : ¬ nodes.length = 0) :
    validateWorkflowConnections nodes edges = some
      ((isolatedErrorsOf nodes edges ++
        (if hasCycleFrom nodes edges (nodes.length + edges.length + 1) nodes [] then
          ["Workflow contains circular dependencies"] else []) ++
        edgeErrorsOf nodes edges).isEmpty,
      isolatedErrorsOf nodes edges ++
        (if hasCycleFrom nodes edges (nodes.length + edges.length + 1) nodes [] then
          ["Workflow contains circular dependencies"] else []) ++
        edgeErrorsOf nodes edges) := by
  unfold validateWorkflowConnections
  rw [if_neg hne, (hasCycle_correct nodes edges hsrc).1]

/-- C4 amended: when every edge's `source` resolves to a node (otherwise the
engine throws, see C1), validation returns a report that contains the
circular-dependency error exactly when the directed edge relation has a
cycle, and that single generic error appears exactly once when it does and
never otherwise.  Concretely: the 3-cycle `A→B→C→A` (which is a `TransGen`
cycle of its edge relation) is reported with the single generic error, and
the non-cyclic chain `userQuery→llm→output` validates clean. -/
theorem c4_cycle_reported_iff_cycle_exists (nodes : List WorkflowNode)
    (edges : List WorkflowEdge) (hsrc : ∀ e ∈ edges, e.source ∈ nodeIds nodes) :
    (∃ r, validateWorkflowConnections nodes edges = some r ∧
      ("Workflow contains circular dependencies" ∈ r.2 ↔
        ∃ v, Relation.TransGen (EdgeStep edges) v v) ∧
      ((∃ v, Relation.TransGen (EdgeStep edges) v v) →
        r.2.count "Workflow contains circular dependencies" = 1) ∧
      ((¬ ∃ v, Relation.TransGen (EdgeStep edges) v v) →
        r.2.count "Workflow contains circular dependencies" = 0)) ∧
    (∃ r, validateWorkflowConnections [wfNodeA, wfNodeB, wfNodeC] [edgeAB, edgeBC, edgeCA] =
        some r ∧
      (∃ v, Relation.TransGen (EdgeStep [edgeAB, edgeBC, edgeCA]) v v) ∧
      "Workflow contains circular dependencies" ∈ r.2 ∧
      r.2.count "Workflow contains circular dependencies" = 1) ∧
    validateWorkflowConnections [wfNodeA, wfNodeB, wfNodeC] [edgeAB, edgeBC] =
      some (true, []) := by
  have hconcrete : ∃ r, validateWorkflowConnections [wfNodeA, wfNodeB, wfNodeC]
      [edgeAB, edgeBC, edgeCA] = some r ∧
      (∃ v, Relation.TransGen (EdgeStep [edgeAB, edgeBC, edgeCA]) v v) ∧
      "Workflow contains circular dependencies" ∈ r.2 ∧
      r.2.count "Workflow contains circular dependencies" = 1 := by
    refine ⟨(false, ["Workflow contains circular dependencies",
      "Invalid connection: OC cannot connect to QA"]), by decide, ?_, by decide, by decide⟩
    have h1 : EdgeStep [edgeAB, edgeBC, edgeCA] "A" "B" := ⟨edgeAB, by simp, rfl, rfl⟩
    have h2 : EdgeStep [edgeAB, edgeBC, edgeCA] "B" "C" := ⟨edgeBC, by simp, rfl, rfl⟩
    have h3 : EdgeStep [edgeAB, edgeBC, edgeCA] "C" "A" := ⟨edgeCA, by simp, rfl, rfl⟩
    exact ⟨"A", Relation.TransGen.head h1
      (Relation.TransGen.head h2 (Relation.TransGen.single h3))⟩
  refine ⟨?_, hconcrete, by decide⟩
  by_cases hnil : nodes.length = 0
  · have hed : edges = [] := by
      cases edges with
      | nil => rfl
      | cons e es =>
        exfalso
        have hmem := hsrc e (List.mem_cons_self e es)
        rw [List.length_eq_zero.mp hnil] at hmem
        simp [nodeIds] at hmem
    subst hed
    have hnone : ¬ ∃ v, Relation.TransGen (EdgeStep ([] : List WorkflowEdge)) v v := by
      rintro ⟨v, hv⟩
      rcases Relation.TransGen.head'_iff.mp hv with ⟨c, hvc, _⟩
      obtain ⟨e, he, _⟩ := hvc
      exact List.not_mem_nil e he
    refine ⟨(false, ["Workflow must contain at least one node"]), ?_, ?_, ?_, ?_⟩
    · unfold validateWorkflowConnections
      rw [if_pos hnil]
    · constructor
      · intro hmem
        exact absurd (List.mem_singleton.mp hmem) (by decide)
      · intro h
        exact absurd h hnone
    · intro h
      exact absurd h hnone
    · intro _
      decide
  · obtain ⟨_, hcIff⟩ := hasCycle_correct nodes edges hsrc
    refine ⟨_, validate_report nodes edges hsrc hnil, ?_, ?_, ?_⟩
    all_goals
      have hmem_iff : ("Workflow contains circular dependencies" ∈
          isolatedErrorsOf nodes edges ++
            (if hasCycleFrom nodes edges (nodes.length + edges.length + 1) nodes [] then
              ["Workflow contains circular dependencies"] else []) ++
            edgeErrorsOf nodes edges) ↔
          hasCycleFrom nodes edges (nodes.length + edges.length + 1) nodes [] = true := by
        constructor
        · intro hm
          rcases List.mem_append.mp hm with hm1 | hm2
          · rcases List.mem_append.mp hm1 with hm1a | hm1b
            · exact absurd hm1a (cycleMsg_not_mem_isolated nodes edges)
            · by_cases hbb : hasCycleFrom nodes edges (nodes.length + edges.length + 1) nodes []
              · exact hbb
              · rw [if_neg hbb] at hm1b
                exact absurd hm1b (List.not_mem_nil _)
          · exact absurd hm2 (cycleMsg_not_mem_edgeErrors nodes edges)
        · intro hbb
          rw [if_pos hbb]
          exact List.mem_append.mpr (Or.inl (List.mem_append.mpr (Or.inr (by simp))))
      have hcount : (isolatedErrorsOf nodes edges ++
          (if hasCycleFrom nodes edges (nodes.length + edges.length + 1) nodes [] then
            ["Workflow contains circular dependencies"] else []) ++
          edgeErrorsOf nodes edges).count "Workflow contains circular dependencies" =
          (if hasCycleFrom nodes edges (nodes.length + edges.length + 1) nodes [] then 1
            else 0) := by
        rw [List.count_append, List.count_append,
          List.count_eq_zero.mpr (cycleMsg_not_mem_isolated nodes edges),
          List.count_eq_zero.mpr (cycleMsg_not_mem_edgeErrors nodes edges)]
        by_cases hbb : hasCycleFrom nodes edges (nodes.length + edges.length + 1) nodes []
        · rw [if_pos hbb, if_pos hbb]
          simp
        · rw [if_neg hbb, if_neg hbb]
          simp
    · exact hmem_iff.trans hcIff
    · intro hcyc
      rw [hcount, if_pos (hcIff.mpr hcyc)]
    · intro hncyc
      rw [hcount, if_neg ?_]
      intro hbb
      exact hncyc (hcIff.mp hbb)

/-- C4 witness: the amended claim at the concrete 3-cycle `A→B→C→A`,
including the exhibited cycle, its reported single generic error, and the
clean validation of the chain `A→B→C`. -/
theorem c4_cycle_report_witness :
    (∃ r, validateWorkflowConnections [wfNodeA, wfNodeB, wfNodeC] [edgeAB, edgeBC, edgeCA] =
        some r ∧
      ("Workflow contains circular dependencies" ∈ r.2 ↔
        ∃ v, Relation.TransGen (EdgeStep [edgeAB, edgeBC, edgeCA]) v v) ∧
      ((∃ v, Relation.TransGen (EdgeStep [edgeAB, edgeBC, edgeCA]) v v) →
        r.2.count "Workflow contains circular dependencies" = 1) ∧
      ((¬ ∃ v, Relation.TransGen (EdgeStep [edgeAB, edgeBC, edgeCA]) v v) →
        r.2.count "Workflow contains circular dependencies" = 0)) ∧
    (∃ r, validateWorkflowConnections [wfNodeA, wfNodeB, wfNodeC] [edgeAB, edgeBC, edgeCA] =
        some r ∧
      (∃ v, Relation.TransGen (EdgeStep [edgeAB, edgeBC, edgeCA]) v v) ∧
      "Workflow contains circular dependencies" ∈ r.2 ∧
      r.2.count "Workflow contains circular dependencies" = 1) ∧
    validateWorkflowConnections [wfNodeA, wfNodeB, wfNodeC] [edgeAB, edgeBC] =
      some (true, []) :=
  c4_cycle_reported_iff_cycle_exists [wfNodeA, wfNodeB, wfNodeC] [edgeAB, edgeBC, edgeCA]
    (by decide)

/-- C4 counterexample: with a cycle `A→B→A` present and an additional edge
whose source resolves to no node, the engine throws instead of reporting, so
"reports a circular-dependency violation iff the graph has a cycle" fails at
this input. -/
theorem c4_cycle_iff_fails_on_throw :
    ¬ ((∃ r, validateWorkflowConnections [wfNodeA, wfNodeB] [edgeAB, edgeBA, edgeGhostA] =
          some r ∧ "Workflow contains circular dependencies" ∈ r.2) ↔
      ∃ v, Relation.TransGen (EdgeStep [edgeAB, edgeBA, edgeGhostA]) v v) := by
  intro h
  have hstep1 : EdgeStep [edgeAB, edgeBA, edgeGhostA] "A" "B" := ⟨edgeAB, by simp, rfl, rfl⟩
  have hstep2 : EdgeStep [edgeAB, edgeBA, edgeGhostA] "B" "A" := ⟨edgeBA, by simp, rfl, rfl⟩
  obtain ⟨r, hr, _⟩ := h.mpr
    ⟨"A", Relation.TransGen.head hstep1 (Relation.TransGen.single hstep2)⟩
  have hnone : validateWorkflowConnections [wfNodeA, wfNodeB] [edgeAB, edgeBA, edgeGhostA] =
      none := by decide
  rw [hnone] at hr
  exact Option.noConfusion hr

/-- C5 amended: when every edge's `source` resolves to a node (otherwise the
engine throws, see C1), every edge whose two endpoints resolve to nodes whose
types violate the allow-list is reported with a violation naming both labels;
`output` in particular may connect to nothing. -/
theorem c5_type_incompatibility_reported (nodes : List WorkflowNode)
    (edges : List WorkflowEdge) (e : WorkflowEdge) (sn tn : WorkflowNode)
    (hsrc : ∀ e' ∈ edges, e'.source ∈ nodeIds nodes)
    (he : e ∈ edges)
    (hfs : nodes.find? (fun n => decide (n.id = e.source)) = some sn)
    (hft : nodes.find? (fun n => decide (n.id = e.target)) = some tn)
    (hinv : isValidConnection sn.type tn.type = false) :
    (∀ t, isValidConnection "output" t = false) ∧
    ∃ r, validateWorkflowConnections nodes edges = some r ∧
      ("Invalid connection: " ++ sn.data.label ++ " cannot connect to " ++ tn.data.label) ∈
        r.2 := by
  constructor
  · intro t
    simp [isValidConnection, allowedTargets]
  · have hnil : ¬ nodes.length = 0 := by
      intro h0
      rw [List.length_eq_zero.mp h0] at hfs
      simp at hfs
    refine ⟨_, validate_report nodes edges hsrc hnil, ?_⟩
    have hmemEdge : ("Invalid connection: " ++ sn.data.label ++ " cannot connect to " ++
        tn.data.label) ∈ edgeErrorsOf nodes edges := by
      unfold edgeErrorsOf
      refine List.mem_flatMap.mpr ⟨e, he, ?_⟩
      rw [hfs, hft]
      show _ ∈ (if isValidConnection sn.type tn.type then ([] : List String)
        else ["Invalid connection: " ++ sn.data.label ++ " cannot connect to " ++
          tn.data.label])
      rw [hinv]
      simp
    exact List.mem_append.mpr (Or.inr hmemEdge)

/-- C5 witness: the violation `output → llm` is reported at a concrete
two-node workflow. -/
theorem c5_type_incompatibility_witness :
    (∀ t, isValidConnection "output" t = false) ∧
    ∃ r, validateWorkflowConnections [wfNodeC, wfNodeB] [edgeCB] = some r ∧
      ("Invalid connection: " ++ wfNodeC.data.label ++ " cannot connect to " ++
        wfNodeB.data.label) ∈ r.2 :=
  c5_type_incompatibility_reported [wfNodeC, wfNodeB] [edgeCB] edgeCB wfNodeC wfNodeB
    (by decide) (by decide) (by decide) (by decide) (by decide)

/-- C5 counterexample: the edge `C→B` has both endpoints present and violates
the allow-list, yet nothing is reported because a second edge with an
unresolvable source makes the whole validation call throw. -/
theorem c5_unreported_when_validation_throws :
    ¬ (∃ r, validateWorkflowConnections [wfNodeC, wfNodeB] [edgeCB, edgeGhostB] = some r ∧
        ("Invalid connection: " ++ wfNodeC.data.label ++ " cannot connect to " ++
          wfNodeB.data.label) ∈ r.2) := by
  rintro ⟨r, hr, _⟩
  have hnone : validateWorkflowConnections [wfNodeC, wfNodeB] [edgeCB, edgeGhostB] = none := by
    decide
  rw [hnone] at hr
  exact Option.noConfusion hr
